import Mathlib

/-!
Verification of the stat-merge/dedup core of `writegithubstat`
(source: `src/writegithubstat/githubstat.py`).

The embedding models:
* JSON payloads (as produced by `json.loads`) as the inductive `Json`;
  the domain covered is JSON documents built from strings, integers,
  arrays and objects with pairwise-distinct keys, which is the shape of
  every payload the GitHub endpoints produce.
* pandas DataFrames as `StatTable`: an ordered list of column labels and
  an ordered list of rows, each row a list of cells (`Value`).  A cell is
  a string, an integer, NaN (for a key missing from one payload item), or
  an uninterpreted nested JSON value.
* Python exceptions (`KeyError`, `IndexError`, `TypeError`,
  `requests.raise_for_status`, pandas `ValueError`) as `Except String`.
* `pd.concat` alignment is modelled for frames with pairwise-distinct
  column labels (pandas itself refuses to align frames with duplicate
  labels).
* File-system state is the content of the one target CSV file,
  `Option StatTable` (`none` = the file does not exist).  Directory
  creation and logging have no effect on that state and are not modelled.
-/

set_option autoImplicit false

namespace GithubStat

/-- A JSON value as produced by `json.loads` on a GitHub API response. -/
inductive Json where
  | str (s : String)
  | int (n : Int)
  | arr (elems : List Json)
  | obj (fields : List (String × Json))
deriving Repr

/-- One cell of a pandas DataFrame. -/
inductive Value where
  | str (s : String)
  | int (n : Int)
  | nan
  | obj (j : Json)
deriving Repr

/-- Dictionary lookup `fields[k]` on a JSON object, `none` = `KeyError`. -/
def lookupJ (fields : List (String × Json)) (k : String) : Option Json :=
  (fields.find? (fun p => p.1 == k)).map Prod.snd

/-- A pandas DataFrame: ordered column labels and ordered rows. -/
structure StatTable where
  columns : List String
  rows : List (List Value)
deriving Repr

/-- `pd.DataFrame()`: no columns, no rows. -/
def StatTable.empty : StatTable := ⟨[], []⟩

/-- `df.empty`: true when either axis has length zero. -/
def StatTable.isEmpty (t : StatTable) : Bool := t.rows.isEmpty || t.columns.isEmpty

/-- Label-based cell lookup: the cell of `row` under the first column of
`cols` named `c` (`none` when the label is absent). -/
def rowGet : List String → List Value → String → Option Value
  | [], _, _ => none
  | c :: cs, vs, k => if c == k then vs.head? else rowGet cs vs.tail k

/-- `pd.DataFrame(list-of-dicts)` column derivation: keys in order of first
appearance across the items. -/
def unionCols (acc : List String) (ks : List String) : List String :=
  ks.foldl (fun a k => if a.contains k then a else a ++ [k]) acc

/-- Columns of `pd.DataFrame(items)`. -/
def itemsCols (items : List (List (String × Value))) : List String :=
  items.foldl (fun a it => unionCols a (it.map Prod.fst)) []

/-- Cell of one payload item under column `c` (`NaN` when the key is absent,
as pandas fills missing keys). -/
def itemCell (it : List (String × Value)) (c : String) : Value :=
  match it.find? (fun p => p.1 == c) with
  | some p => p.2
  | none => Value.nan

/-- `pd.DataFrame(items)` for a list of (ordered) dictionaries. -/
def dfOfItems (items : List (List (String × Value))) : StatTable :=
  let cols := itemsCols items
  ⟨cols, items.map (fun it => cols.map (fun c => itemCell it c))⟩

/-- A JSON leaf as a DataFrame cell; nested structures are stored as-is by
pandas, modelled as an uninterpreted `Value.obj`. -/
def jsonToValue : Json → Value
  | .str s => .str s
  | .int n => .int n
  | j => .obj j

/-- One payload item: must be a JSON object to become a DataFrame row. -/
def jsonItem : Json → Except String (List (String × Value))
  | .obj fields => .ok (fields.map (fun p => (p.1, jsonToValue p.2)))
  | _ => .error "TypeError"

/-- A whole payload: must be an array of objects to become a DataFrame. -/
def jsonToItems : Json → Except String (List (List (String × Value)))
  | .arr elems => elems.mapM jsonItem
  | _ => .error "TypeError"

/-- Column labels after `df.drop(k, axis=1)` (first occurrence removed). -/
def dropColumnCols : List String → String → List String
  | [], _ => []
  | c :: cs, k => if c == k then cs else c :: dropColumnCols cs k

/-- One row after `df.drop(k, axis=1)`: the cell at the dropped column's
position is removed. -/
def dropCellAt : List String → List Value → String → List Value
  | [], vs, _ => vs
  | c :: cs, vs, k =>
    if c == k then vs.tail
    else
      match vs with
      | [] => []
      | v :: vs => v :: dropCellAt cs vs k

/-- `df.drop(k, axis=1)`. -/
def StatTable.dropColumn (t : StatTable) (k : String) : StatTable :=
  ⟨dropColumnCols t.columns k, t.rows.map (fun r => dropCellAt t.columns r k)⟩

/-! The metric-type hierarchy (`GithubStatType` and its subclasses). -/

/-- The four concrete `GithubStatType` subclasses.  `ViewsClones` carries the
target date its constructor receives. -/
inductive GithubStatType where
  | referrers
  | paths
  | starsForks
  | viewsClones (targetDate : String)
deriving Repr, DecidableEq

/-- The declared dimension columns of each metric type. -/
def GithubStatType.dimensions : GithubStatType → List String
  | .referrers => ["referrer"]
  | .paths => ["path"]
  | .starsForks => []
  | .viewsClones _ => []

/-- The declared measure columns of each metric type. -/
def GithubStatType.measures : GithubStatType → List String
  | .referrers => ["count", "uniques"]
  | .paths => ["count", "uniques"]
  | .starsForks => ["stars", "forks"]
  | .viewsClones _ =>
    ["views_total", "views_unique", "clones_total", "clones_unique"]

/-- How many endpoint URLs each metric type declares (`urls`):
`ViewsClones` has a views and a clones endpoint, the rest have one. -/
def GithubStatType.urlCount : GithubStatType → Nat
  | .viewsClones _ => 2
  | _ => 1

/-- `responses[i]`, `IndexError` when out of range. -/
def getItem (js : List Json) (i : Nat) : Except String Json :=
  match js.get? i with
  | some j => .ok j
  | none => .error "IndexError"

/-- `fields[k]` raising `KeyError` when absent. -/
def objGet (fields : List (String × Json)) (k : String) : Except String Json :=
  match lookupJ fields k with
  | some v => .ok v
  | none => .error "KeyError"

/-- `Referrers.process_stat`: `pd.DataFrame(responses[0])`. -/
def processReferrers (responses : List Json) : Except String StatTable := do
  let data ← getItem responses 0
  let items ← jsonToItems data
  return dfOfItems items

/-- `Paths.process_stat`: `pd.DataFrame(responses[0])`, then drop the
`title` column when present. -/
def processPaths (responses : List Json) : Except String StatTable := do
  let data ← getItem responses 0
  let items ← jsonToItems data
  let df := dfOfItems items
  return if df.columns.contains "title" then df.dropColumn "title" else df

/-- Subscripting `data[...]` requires a JSON object (`TypeError` otherwise). -/
def asObj : Json → Except String (List (String × Json))
  | .obj fs => .ok fs
  | _ => .error "TypeError"

/-- `StarsForks.process_stat`: extract `stargazers_count` and `forks_count`
from the single repository object (a missing field raises `KeyError`). -/
def processStarsForks (responses : List Json) : Except String StatTable := do
  let data ← getItem responses 0
  let fields ← asObj data
  let stars ← objGet fields "stargazers_count"
  let forks ← objGet fields "forks_count"
  return ⟨["stars", "forks"], [[jsonToValue stars, jsonToValue forks]]⟩

/-- Python's `str.startswith`, char by char (evaluates by kernel reduction,
unlike `String.startsWith`). -/
def pyStartsWith (s pre : String) : Bool := pre.data.isPrefixOf s.data

/-- The zero-filled fallback `\x7b"count": 0, "uniques": 0\x7d` of
`ViewsClones._get_actual_stat`. -/
def zeroStat : List (String × Json) := [("count", Json.int 0), ("uniques", Json.int 0)]

/-- The `for stat in data[name]` loop body of `ViewsClones._get_actual_stat`:
return the first entry whose `timestamp` starts with `date`; an exhausted
loop raises `ValueError`, caught into the zero stat; a missing `timestamp`
key raises `KeyError`, caught into the zero stat; subscripting a non-object
entry or calling `startswith` on a non-string is an uncaught `TypeError` /
`AttributeError`. -/
def findActualStat (date : String) : List Json → Except String (List (String × Json))
  | [] => .ok zeroStat
  | e :: es =>
    match e with
    | .obj fields =>
      match lookupJ fields "timestamp" with
      | some (.str ts) =>
        if pyStartsWith ts date then .ok fields else findActualStat date es
      | some _ => .error "AttributeError"
      | none => .ok zeroStat
    | _ => .error "TypeError"

/-- `ViewsClones._get_actual_stat`: a missing `name` key raises `KeyError`,
caught into the zero stat; iterating a non-array value is an uncaught
`TypeError`. -/
def getActualStat (date : String) (data : Json) (name : String) :
    Except String (List (String × Json)) :=
  match data with
  | .obj fields =>
    match lookupJ fields name with
    | some (.arr entries) => findActualStat date entries
    | some _ => .error "TypeError"
    | none => .ok zeroStat
  | _ => .error "TypeError"

/-- `ViewsClones.process_stat`: select the actual views and clones entries
and build the one-row frame (a `count`/`uniques` key missing from the
selected entry raises an uncaught `KeyError`). -/
def processViewsClones (date : String) (responses : List Json) :
    Except String StatTable := do
  let r0 ← getItem responses 0
  let r1 ← getItem responses 1
  let views ← getActualStat date r0 "views"
  let clones ← getActualStat date r1 "clones"
  let vt ← objGet views "count"
  let vu ← objGet views "uniques"
  let ct ← objGet clones "count"
  let cu ← objGet clones "uniques"
  return ⟨["views_total", "views_unique", "clones_total", "clones_unique"],
          [[jsonToValue vt, jsonToValue vu, jsonToValue ct, jsonToValue cu]]⟩

/-- `process_stat` dispatch over the metric-type hierarchy. -/
def processStat : GithubStatType → List Json → Except String StatTable
  | .referrers, rs => processReferrers rs
  | .paths, rs => processPaths rs
  | .starsForks, rs => processStarsForks rs
  | .viewsClones date, rs => processViewsClones date rs

/-- The request loop of `GithubStatAPI.get_stat`: one response per URL;
`raise_for_status` on the first non-2xx response (an `Except.error` input)
aborts the whole fetch with that error and no partial result. -/
def fetchResponses : List (Except String Json) → Except String (List Json)
  | [] => .ok []
  | r :: rs => do
    let j ← r
    let js ← fetchResponses rs
    return j :: js

/-- `GithubStatAPI.get_stat`: fetch every endpoint, then run the metric
type's transform. -/
def getStat (st : GithubStatType) (responses : List (Except String Json)) :
    Except String StatTable := do
  let js ← fetchResponses responses
  processStat st js

/-- The sentinel frame `pd.DataFrame([empty])` built by
`WriteGithubStat._get_stats` for an empty transform result: dimensions
filled with `"-"`, measures with `0`. -/
def sentinelRowTable (st : GithubStatType) : StatTable :=
  ⟨st.dimensions ++ st.measures,
   [st.dimensions.map (fun _ => Value.str "-") ++ st.measures.map (fun _ => Value.int 0)]⟩

/-- `WriteGithubStat._insert_metadata`: insert `date`, `owner`, `repo` as
the first three columns; `df.insert` raises `ValueError` when the column
already exists. -/
def insertMetadata (date owner repo : String) (t : StatTable) :
    Except String StatTable :=
  if t.columns.contains "date" || t.columns.contains "owner" || t.columns.contains "repo" then
    .error "ValueError"
  else
    .ok ⟨"date" :: "owner" :: "repo" :: t.columns,
         t.rows.map (fun r => Value.str date :: Value.str owner :: Value.str repo :: r)⟩

/-- `WriteGithubStat._get_stats`: fetch and transform, synthesize the
sentinel row when the transform result is empty, then stamp the metadata
columns. -/
def getStats (date owner repo : String) (st : GithubStatType)
    (responses : List (Except String Json)) : Except String StatTable := do
  let stat ← getStat st responses
  let stat := if stat.isEmpty then sentinelRowTable st else stat
  insertMetadata date owner repo stat

/-- The boolean mask
`(stored["date"] == date) & (stored["owner"] == owner) & (stored["repo"] == repo)`
on one row. -/
def cellEqStr (v : Option Value) (s : String) : Bool :=
  match v with
  | some (.str t) => t == s
  | _ => false

/-- The boolean mask
`(stored["date"] == date) & (stored["owner"] == owner) & (stored["repo"] == repo)`
on one row (a pandas cell compares equal to a string only when it is that
string; an integer, `NaN` or object cell compares unequal). -/
def rowMatchesKey (cols : List String) (date owner repo : String)
    (row : List Value) : Bool :=
  cellEqStr (rowGet cols row "date") date &&
  cellEqStr (rowGet cols row "owner") owner &&
  cellEqStr (rowGet cols row "repo") repo

/-- `stored.drop(stored[mask].index)`: remove every row matching the
`(date, owner, repo)` key, preserving the order of the rest. -/
def dropKeyRows (date owner repo : String) (t : StatTable) : StatTable :=
  ⟨t.columns, t.rows.filter (fun row => !rowMatchesKey t.columns date owner repo row)⟩

/-- One row re-aligned to `newCols` (pandas outer-join alignment; a label
absent from `oldCols` yields `NaN`). -/
def reindexRow (oldCols : List String) (row : List Value) (newCols : List String) :
    List Value :=
  newCols.map (fun c => (rowGet oldCols row c).getD Value.nan)

/-- The column labels of `pd.concat([a, b])` with differing columns:
`a`'s columns followed by the columns appearing only in `b`. -/
def concatCols (a b : StatTable) : List String :=
  a.columns ++ b.columns.filter (fun c => !a.columns.contains c)

/-- `pd.concat([a, b])`: plain row stacking when the column labels agree,
outer-join alignment (first-appearance column order, `NaN` fill) otherwise. -/
def concatTables (a b : StatTable) : StatTable :=
  if a.columns = b.columns then ⟨a.columns, a.rows ++ b.rows⟩
  else
    ⟨concatCols a b,
     a.rows.map (fun r => reindexRow a.columns r (concatCols a b)) ++
     b.rows.map (fun r => reindexRow b.columns r (concatCols a b))⟩

/-- `WriteGithubStat._merge_stats`: an empty stored frame passes the fresh
frame through; otherwise drop the stored rows matching the
`(date, owner, repo)` key and concatenate the fresh rows after the rest
(subscripting a stored frame missing one of the key columns raises
`KeyError`). -/
def mergeStats (date owner repo : String) (stored stats : StatTable) :
    Except String StatTable :=
  if stored.isEmpty then .ok stats
  else if stored.columns.contains "date" && stored.columns.contains "owner"
      && stored.columns.contains "repo" then
    .ok (concatTables (dropKeyRows date owner repo stored) stats)
  else .error "KeyError"

/-- `WriteGithubStat._get_stored_stats`: `pd.read_csv`, with
`FileNotFoundError` caught into an empty frame. -/
def getStoredStats : Option StatTable → StatTable
  | some t => t
  | none => StatTable.empty

/-- `WriteGithubStat.write_stat` as a transformer of the target file's
content: fetch, transform, sentinel-fill, stamp, read the stored table,
merge, and persist.  An `Except.error` is a raised exception; the file is
only replaced by a returned `some` table. -/
def writeStat (date owner repo : String) (st : GithubStatType)
    (responses : List (Except String Json)) (file : Option StatTable) :
    Except String (Option StatTable) := do
  let stats ← getStats date owner repo st responses
  let stored := getStoredStats file
  let merged ← mergeStats date owner repo stored stats
  return some merged

/-- The file content after a `write_stat` invocation: unchanged when an
exception was raised before `to_csv`. -/
def runWriteStat (date owner repo : String) (st : GithubStatType)
    (responses : List (Except String Json)) (file : Option StatTable) :
    Option StatTable :=
  match writeStat date owner repo st responses file with
  | .ok f => f
  | .error _ => file

/-! The run date (`WriteGithubStat.__init__`). -/

/-- A proleptic-Gregorian calendar date (`datetime.date`). -/
structure PyDate where
  year : Nat
  month : Nat
  day : Nat
deriving Repr, DecidableEq

/-- Gregorian leap-year rule. -/
def isLeapYear (y : Nat) : Bool := (y % 4 == 0 && y % 100 != 0) || y % 400 == 0

/-- Length of month `m` of year `y`. -/
def daysInMonth (y m : Nat) : Nat :=
  if m == 2 then (if isLeapYear y then 29 else 28)
  else if m == 4 || m == 6 || m == 9 || m == 11 then 30
  else 31

/-- `d - timedelta(days=1)`. -/
def prevDay (d : PyDate) : PyDate :=
  if d.day > 1 then ⟨d.year, d.month, d.day - 1⟩
  else if d.month > 1 then ⟨d.year, d.month - 1, daysInMonth d.year (d.month - 1)⟩
  else ⟨d.year - 1, 12, 31⟩

/-- Zero-padded two-digit field of `strftime`. -/
def pad2 (n : Nat) : String := if n < 10 then "0" ++ toString n else toString n

/-- Zero-padded four-digit year field of `strftime`. -/
def pad4 (n : Nat) : String :=
  if n < 10 then "000" ++ toString n
  else if n < 100 then "00" ++ toString n
  else if n < 1000 then "0" ++ toString n
  else toString n

/-- `strftime("%Y-%m-%d")`. -/
def strftimeYMD (d : PyDate) : String :=
  pad4 d.year ++ "-" ++ pad2 d.month ++ "-" ++ pad2 d.day

/-- `WriteGithubStat.__init__`: the run date stored in `self._date` when the
system date is `today` is yesterday, formatted `YYYY-MM-DD`. -/
def writeGithubStatDate (today : PyDate) : String := strftimeYMD (prevDay today)

/-- A views/clones history entry that the selection loop can only skip: an
object whose `timestamp` is a string that does not start with the target
date. -/
def entrySkipped (date : String) : Json → Prop
  | .obj fs => ∃ ts, lookupJ fs "timestamp" = some (Json.str ts) ∧ pyStartsWith ts date = false
  | _ => False

/-- A views/clones history entry that never matches the target date but is
well-formed enough for the loop not to raise: an object whose `timestamp`,
when present, is a string not starting with the target date. -/
def entryNoMatch (date : String) : Json → Prop
  | .obj fs => ∀ v, lookupJ fs "timestamp" = some v →
      ∃ ts, v = Json.str ts ∧ pyStartsWith ts date = false
  | _ => False

/-! ## Helper lemmas -/

theorem exbind_error {α β : Type} (e : String) (f : α → Except String β) :
    (Except.error e >>= f) = Except.error e := rfl

theorem exbind_ok {α β : Type} (a : α) (f : α → Except String β) :
    (Except.ok a >>= f) = f a := rfl

theorem expure {α : Type} (a : α) : (pure a : Except String α) = Except.ok a := rfl

theorem exbind_ok_inv {α β : Type} {x : Except String α} {f : α → Except String β}
    {b : β} (h : (x >>= f) = Except.ok b) : ∃ a, x = Except.ok a ∧ f a = Except.ok b := by
  cases x with
  | error e => rw [exbind_error] at h; exact absurd h (by simp)
  | ok a => exact ⟨a, rfl, by rwa [exbind_ok] at h⟩

theorem mapCongrMem {α β : Type} {f g : α → β} :
    ∀ {l : List α}, (∀ a ∈ l, f a = g a) → l.map f = l.map g := by
  intro l
  induction l with
  | nil => intro _; rfl
  | cons a l ih =>
    intro h
    simp only [List.map_cons]
    rw [h a (by simp), ih (fun a ha => h a (by simp [ha]))]

theorem containsIffMem (l : List String) (a : String) : l.contains a = true ↔ a ∈ l := by
  induction l with
  | nil => simp
  | cons b l ih =>
    simp only [List.contains_cons, Bool.or_eq_true, beq_iff_eq, ih, List.mem_cons]

theorem rowGet_cons_self (c : String) (cs : List String) (v : Value) (vs : List Value) :
    rowGet (c :: cs) (v :: vs) c = some v := by
  simp [rowGet]

theorem rowGet_cons_ne (c : String) (cs : List String) (vs : List Value) (k : String)
    (h : c ≠ k) : rowGet (c :: cs) vs k = rowGet cs vs.tail k := by
  simp [rowGet, h]

theorem rowGet_map_self (f : String → Value) (k : String) :
    ∀ cols : List String, k ∈ cols → rowGet cols (cols.map f) k = some (f k) := by
  intro cols
  induction cols with
  | nil => intro h; simp at h
  | cons c cs ih =>
    intro h
    by_cases hc : c = k
    · subst hc; simp [rowGet]
    · rw [List.map_cons, rowGet_cons_ne c cs _ k hc]
      exact ih ((List.mem_cons.mp h).resolve_left (fun hk => hc hk.symm))

theorem reindexRow_length (oc : List String) (row : List Value) (nc : List String) :
    (reindexRow oc row nc).length = nc.length := by
  simp [reindexRow]

theorem rowGet_reindexRow (oc : List String) (row : List Value) (nc : List String)
    (k : String) (hk : k ∈ nc) :
    rowGet nc (reindexRow oc row nc) k = some ((rowGet oc row k).getD Value.nan) :=
  rowGet_map_self _ k nc hk

theorem reindexRow_self :
    ∀ (cols : List String) (row : List Value), cols.Nodup → row.length = cols.length →
      reindexRow cols row cols = row := by
  intro cols
  induction cols with
  | nil =>
    intro row _ hlen
    cases row with
    | nil => rfl
    | cons v vs => simp at hlen
  | cons c cs ih =>
    intro row hnd hlen
    cases row with
    | nil => simp at hlen
    | cons v vs =>
      have hc : c ∉ cs := (List.nodup_cons.mp hnd).1
      have hcs : cs.Nodup := (List.nodup_cons.mp hnd).2
      have hlen2 : vs.length = cs.length := by simpa using hlen
      show ((c :: cs).map fun k => (rowGet (c :: cs) (v :: vs) k).getD Value.nan) = v :: vs
      rw [List.map_cons, rowGet_cons_self]
      have htail : (cs.map fun k => (rowGet (c :: cs) (v :: vs) k).getD Value.nan) =
          cs.map fun k => (rowGet cs vs k).getD Value.nan := by
        apply mapCongrMem
        intro k hk
        have hne : c ≠ k := fun hck => hc (hck ▸ hk)
        rw [rowGet_cons_ne c cs _ k hne]
        rfl
      rw [htail]
      exact congrArg (v :: ·) (ih vs hcs hlen2)

theorem cellEqStr_getD (v : Option Value) (s : String) :
    cellEqStr (some (v.getD Value.nan)) s = cellEqStr v s := by
  cases v with
  | none => rfl
  | some w => rfl

theorem rowMatchesKey_reindex (oc : List String) (row : List Value) (nc : List String)
    (d o r : String) (hd : "date" ∈ nc) (ho : "owner" ∈ nc) (hr : "repo" ∈ nc) :
    rowMatchesKey nc d o r (reindexRow oc row nc) = rowMatchesKey oc d o r row := by
  unfold rowMatchesKey
  rw [rowGet_reindexRow oc row nc _ hd, rowGet_reindexRow oc row nc _ ho,
    rowGet_reindexRow oc row nc _ hr, cellEqStr_getD, cellEqStr_getD, cellEqStr_getD]

theorem rowMatchesKey_stamped (cs : List String) (d o r : String) (rest : List Value) :
    rowMatchesKey ("date" :: "owner" :: "repo" :: cs) d o r
      (Value.str d :: Value.str o :: Value.str r :: rest) = true := by
  simp [rowMatchesKey, rowGet, cellEqStr]

theorem unionCols_nodup : ∀ (ks acc : List String), acc.Nodup → (unionCols acc ks).Nodup := by
  intro ks
  induction ks with
  | nil => intro acc h; exact h
  | cons k ks ih =>
    intro acc h
    rw [unionCols, List.foldl_cons]
    by_cases hc : acc.contains k
    · rw [if_pos hc]
      exact ih acc h
    · rw [if_neg hc]
      apply ih
      have hk : k ∉ acc := fun hm => hc ((containsIffMem acc k).mpr hm)
      simp [List.nodup_append, h, hk]

theorem itemsColsAux_nodup :
    ∀ (items : List (List (String × Value))) (acc : List String), acc.Nodup →
      (items.foldl (fun a it => unionCols a (it.map Prod.fst)) acc).Nodup := by
  intro items
  induction items with
  | nil => intro acc h; exact h
  | cons it items ih =>
    intro acc h
    rw [List.foldl_cons]
    exact ih _ (unionCols_nodup _ _ h)

theorem itemsCols_nodup (items : List (List (String × Value))) : (itemsCols items).Nodup :=
  itemsColsAux_nodup items [] List.nodup_nil

theorem dfOfItems_columns (items : List (List (String × Value))) :
    (dfOfItems items).columns = itemsCols items := rfl

theorem dfOfItems_wf (items : List (List (String × Value))) :
    (dfOfItems items).columns.Nodup ∧
      ∀ row ∈ (dfOfItems items).rows, row.length = (dfOfItems items).columns.length := by
  constructor
  · exact itemsCols_nodup items
  · intro row hrow
    simp only [dfOfItems, List.mem_map] at hrow
    obtain ⟨it, _, hr⟩ := hrow
    rw [← hr]
    simp [dfOfItems]

theorem dropColumnCols_eq_erase :
    ∀ (cols : List String) (k : String), dropColumnCols cols k = cols.erase k := by
  intro cols k
  induction cols with
  | nil => rfl
  | cons c cs ih =>
    simp only [dropColumnCols, List.erase_cons]
    rw [ih]

theorem dropCellAt_length :
    ∀ (cols : List String) (row : List Value) (k : String), row.length = cols.length →
      (dropCellAt cols row k).length = (dropColumnCols cols k).length := by
  intro cols
  induction cols with
  | nil =>
    intro row k h
    cases row with
    | nil => rfl
    | cons v vs => simp at h
  | cons c cs ih =>
    intro row k h
    cases row with
    | nil => simp at h
    | cons v vs =>
      simp only [dropCellAt, dropColumnCols]
      by_cases hc : (c == k) = true
      · simp only [hc, if_true, List.tail_cons]
        simpa using h
      · simp only [hc, if_false, Bool.false_eq_true, List.length_cons]
        rw [ih vs k (by simpa using h)]

theorem processReferrers_ok {js : List Json} {t : StatTable}
    (h : processReferrers js = .ok t) :
    ∃ data items, getItem js 0 = .ok data ∧ jsonToItems data = .ok items ∧
      t = dfOfItems items := by
  unfold processReferrers at h
  obtain ⟨data, hd, h⟩ := exbind_ok_inv h
  obtain ⟨items, hi, h⟩ := exbind_ok_inv h
  exact ⟨data, items, hd, hi, by simpa [expure] using h.symm⟩

theorem processPaths_ok {js : List Json} {t : StatTable}
    (h : processPaths js = .ok t) :
    ∃ data items, getItem js 0 = .ok data ∧ jsonToItems data = .ok items ∧
      t = (if (dfOfItems items).columns.contains "title" then
            (dfOfItems items).dropColumn "title" else dfOfItems items) := by
  unfold processPaths at h
  obtain ⟨data, hd, h⟩ := exbind_ok_inv h
  obtain ⟨items, hi, h⟩ := exbind_ok_inv h
  exact ⟨data, items, hd, hi, by simpa [expure] using h.symm⟩

theorem processStarsForks_ok {js : List Json} {t : StatTable}
    (h : processStarsForks js = .ok t) :
    ∃ stars forks, t = ⟨["stars", "forks"], [[jsonToValue stars, jsonToValue forks]]⟩ := by
  unfold processStarsForks at h
  obtain ⟨data, _, h⟩ := exbind_ok_inv h
  obtain ⟨fields, _, h⟩ := exbind_ok_inv h
  obtain ⟨stars, _, h⟩ := exbind_ok_inv h
  obtain ⟨forks, _, h⟩ := exbind_ok_inv h
  exact ⟨stars, forks, by simpa [expure] using h.symm⟩

theorem processViewsClones_ok {date : String} {js : List Json} {t : StatTable}
    (h : processViewsClones date js = .ok t) :
    ∃ vt vu ct cu, t = ⟨["views_total", "views_unique", "clones_total", "clones_unique"],
      [[jsonToValue vt, jsonToValue vu, jsonToValue ct, jsonToValue cu]]⟩ := by
  unfold processViewsClones at h
  obtain ⟨r0, _, h⟩ := exbind_ok_inv h
  obtain ⟨r1, _, h⟩ := exbind_ok_inv h
  obtain ⟨views, _, h⟩ := exbind_ok_inv h
  obtain ⟨clones, _, h⟩ := exbind_ok_inv h
  obtain ⟨vt, _, h⟩ := exbind_ok_inv h
  obtain ⟨vu, _, h⟩ := exbind_ok_inv h
  obtain ⟨ct, _, h⟩ := exbind_ok_inv h
  obtain ⟨cu, _, h⟩ := exbind_ok_inv h
  exact ⟨vt, vu, ct, cu, by simpa [expure] using h.symm⟩

theorem processStat_wf {st : GithubStatType} {js : List Json} {t : StatTable}
    (h : processStat st js = .ok t) :
    t.columns.Nodup ∧ ∀ row ∈ t.rows, row.length = t.columns.length := by
  cases st with
  | referrers =>
    obtain ⟨data, items, _, _, rfl⟩ := processReferrers_ok h
    exact dfOfItems_wf items
  | paths =>
    obtain ⟨data, items, _, _, rfl⟩ := processPaths_ok h
    by_cases hc : (dfOfItems items).columns.contains "title"
    · rw [if_pos hc]
      have hw := dfOfItems_wf items
      constructor
      · show (dropColumnCols (dfOfItems items).columns "title").Nodup
        rw [dropColumnCols_eq_erase]
        exact hw.1.erase "title"
      · intro row hrow
        simp only [StatTable.dropColumn, List.mem_map] at hrow
        obtain ⟨r0, hr0, hr⟩ := hrow
        rw [← hr]
        exact dropCellAt_length _ _ _ (hw.2 r0 hr0)
    · rw [if_neg hc]
      exact dfOfItems_wf items
  | starsForks =>
    obtain ⟨stars, forks, rfl⟩ := processStarsForks_ok h
    refine ⟨by show (["stars", "forks"] : List String).Nodup; decide, ?_⟩
    intro row hrow
    simp only [List.mem_singleton] at hrow
    subst hrow
    rfl
  | viewsClones dt =>
    obtain ⟨vt, vu, ct, cu, rfl⟩ := processViewsClones_ok h
    refine ⟨by
      show (["views_total", "views_unique", "clones_total", "clones_unique"] :
        List String).Nodup
      decide, ?_⟩
    intro row hrow
    simp only [List.mem_singleton] at hrow
    subst hrow
    rfl

theorem getStat_ok {st : GithubStatType} {resp : List (Except String Json)} {t : StatTable}
    (h : getStat st resp = .ok t) :
    ∃ js, fetchResponses resp = .ok js ∧ processStat st js = .ok t := by
  unfold getStat at h
  obtain ⟨js, h1, h2⟩ := exbind_ok_inv h
  exact ⟨js, h1, h2⟩

theorem sentinelRowTable_wf (st : GithubStatType) :
    (sentinelRowTable st).columns.Nodup ∧
      (∀ row ∈ (sentinelRowTable st).rows, row.length = (sentinelRowTable st).columns.length) ∧
      (sentinelRowTable st).rows ≠ [] := by
  refine ⟨?_, ?_, by simp [sentinelRowTable]⟩
  · cases st with
    | referrers => decide
    | paths => decide
    | starsForks => decide
    | viewsClones dt =>
      show (["views_total", "views_unique", "clones_total", "clones_unique"] :
        List String).Nodup
      decide
  · intro row hrow
    simp only [sentinelRowTable, List.mem_singleton] at hrow
    subst hrow
    simp [sentinelRowTable]

theorem insertMetadata_ok_shape {d o r : String} {t stats : StatTable}
    (hnd : t.columns.Nodup)
    (hlen : ∀ row ∈ t.rows, row.length = t.columns.length)
    (hne : t.rows ≠ [])
    (h : insertMetadata d o r t = .ok stats) :
    ∃ cs rows, stats.columns = "date" :: "owner" :: "repo" :: cs ∧ stats.columns.Nodup ∧
      stats.rows = rows.map (fun row => Value.str d :: Value.str o :: Value.str r :: row) ∧
      rows ≠ [] ∧ ∀ row ∈ rows, row.length = cs.length := by
  unfold insertMetadata at h
  by_cases hg : (t.columns.contains "date" || t.columns.contains "owner"
      || t.columns.contains "repo") = true
  · rw [if_pos hg] at h
    exact absurd h (by simp)
  · rw [if_neg hg] at h
    have hstats : stats = ⟨"date" :: "owner" :: "repo" :: t.columns,
        t.rows.map (fun r0 => Value.str d :: Value.str o :: Value.str r :: r0)⟩ := by
      simpa using h.symm
    subst hstats
    simp only [Bool.or_eq_true, not_or, Bool.not_eq_true] at hg
    obtain ⟨⟨hd, ho⟩, hr⟩ := hg
    have hdm : "date" ∉ t.columns := fun hm => by
      rw [(containsIffMem t.columns "date").mpr hm] at hd; exact absurd hd (by simp)
    have hom : "owner" ∉ t.columns := fun hm => by
      rw [(containsIffMem t.columns "owner").mpr hm] at ho; exact absurd ho (by simp)
    have hrm : "repo" ∉ t.columns := fun hm => by
      rw [(containsIffMem t.columns "repo").mpr hm] at hr; exact absurd hr (by simp)
    refine ⟨t.columns, t.rows, rfl, ?_, rfl, hne, hlen⟩
    simp only [List.nodup_cons, List.mem_cons, not_or]
    refine ⟨⟨by decide, by decide, hdm⟩, ⟨by decide, hom⟩, hrm, hnd⟩

theorem getStats_ok_shape {d o r : String} {st : GithubStatType}
    {resp : List (Except String Json)} {stats : StatTable}
    (h : getStats d o r st resp = .ok stats) :
    ∃ cs rows, stats.columns = "date" :: "owner" :: "repo" :: cs ∧ stats.columns.Nodup ∧
      stats.rows = rows.map (fun row => Value.str d :: Value.str o :: Value.str r :: row) ∧
      rows ≠ [] ∧ ∀ row ∈ rows, row.length = cs.length := by
  unfold getStats at h
  obtain ⟨t, ht, h⟩ := exbind_ok_inv h
  by_cases he : t.isEmpty
  · rw [if_pos he] at h
    have hw := sentinelRowTable_wf st
    exact insertMetadata_ok_shape hw.1 hw.2.1 hw.2.2 h
  · rw [if_neg he] at h
    obtain ⟨js, _, hp⟩ := getStat_ok ht
    have hw := processStat_wf hp
    have hne : t.rows ≠ [] := by
      intro hnil
      apply he
      simp [StatTable.isEmpty, hnil]
    exact insertMetadata_ok_shape hw.1 hw.2 hne h

theorem writeStat_ok_inv {d o r : String} {st : GithubStatType}
    {resp : List (Except String Json)} {file f : Option StatTable}
    (h : writeStat d o r st resp file = .ok f) :
    ∃ stats merged, getStats d o r st resp = .ok stats ∧
      mergeStats d o r (getStoredStats file) stats = .ok merged ∧ f = some merged := by
  unfold writeStat at h
  obtain ⟨stats, h1, h⟩ := exbind_ok_inv h
  obtain ⟨merged, h2, h⟩ := exbind_ok_inv h
  exact ⟨stats, merged, h1, h2, by simpa [expure] using h.symm⟩

theorem isEmpty_false_of {t : StatTable} (h1 : t.rows ≠ []) (h2 : t.columns ≠ []) :
    t.isEmpty = false := by
  cases hr : t.rows with
  | nil => exact absurd hr h1
  | cons a l =>
    cases hc : t.columns with
    | nil => exact absurd hc h2
    | cons b m =>
      unfold StatTable.isEmpty
      rw [hr, hc]
      rfl

theorem mergeGuard_true {t : StatTable} (hd : "date" ∈ t.columns)
    (ho : "owner" ∈ t.columns) (hr : "repo" ∈ t.columns) :
    (t.columns.contains "date" && t.columns.contains "owner"
      && t.columns.contains "repo") = true := by
  simp [Bool.and_eq_true, containsIffMem, hd, ho, hr]

theorem dropKeyRows_all_match {d o r : String} {t : StatTable}
    (h : ∀ row ∈ t.rows, rowMatchesKey t.columns d o r row = true) :
    dropKeyRows d o r t = ⟨t.columns, []⟩ := by
  unfold dropKeyRows
  congr 1
  rw [List.filter_eq_nil_iff]
  intro row hrow
  simp [h row hrow]

theorem filter_of_already (p : List Value → Bool) (l : List (List Value)) :
    (l.filter p).filter p = l.filter p := by
  rw [List.filter_eq_self]
  intro a ha
  exact List.of_mem_filter ha

theorem concatTables_absorb {a b : StatTable}
    (hsub : ∀ c ∈ b.columns, c ∈ a.columns)
    (hand : a.columns.Nodup) (hbnd : b.columns.Nodup)
    (halen : ∀ row ∈ a.rows, row.length = a.columns.length)
    (hblen : ∀ row ∈ b.rows, row.length = b.columns.length) :
    concatTables a b =
      ⟨a.columns, a.rows ++ b.rows.map (fun r => reindexRow b.columns r a.columns)⟩ := by
  unfold concatTables
  by_cases hceq : a.columns = b.columns
  · rw [if_pos hceq]
    congr 1
    have hbid : b.rows.map (fun r => reindexRow b.columns r a.columns) = b.rows := by
      rw [hceq]
      have := mapCongrMem (f := fun r => reindexRow b.columns r b.columns) (g := id)
        (l := b.rows) (fun row hrow => reindexRow_self b.columns row hbnd (hblen row hrow))
      rw [this, List.map_id]
    rw [hbid]
  · rw [if_neg hceq]
    have hfil : b.columns.filter (fun c => !a.columns.contains c) = [] := by
      rw [List.filter_eq_nil_iff]
      intro c hc
      simp [containsIffMem, hsub c hc]
    have hcc : concatCols a b = a.columns := by
      unfold concatCols
      rw [hfil, List.append_nil]
    rw [hcc]
    congr 1
    have haid : a.rows.map (fun r => reindexRow a.columns r a.columns) = a.rows := by
      have := mapCongrMem (f := fun r => reindexRow a.columns r a.columns) (g := id)
        (l := a.rows) (fun row hrow => reindexRow_self a.columns row hand (halen row hrow))
      rw [this, List.map_id]
    rw [haid]

theorem mergeStats_fixpoint {d o r : String} {stored stats merged : StatTable}
    (hnd : stored.columns.Nodup)
    (cs : List String) (rows : List (List Value))
    (hcols : stats.columns = "date" :: "owner" :: "repo" :: cs)
    (hsnd : stats.columns.Nodup)
    (hrows : stats.rows = rows.map (fun row => Value.str d :: Value.str o :: Value.str r :: row))
    (hne : rows ≠ [])
    (hlen : ∀ row ∈ rows, row.length = cs.length)
    (h : mergeStats d o r stored stats = .ok merged) :
    mergeStats d o r merged stats = .ok merged := by
  have hsne : stats.rows ≠ [] := by
    rw [hrows]
    simpa using hne
  have hscne : stats.columns ≠ [] := by
    rw [hcols]
    exact List.cons_ne_nil _ _
  have hallm : ∀ row ∈ stats.rows, rowMatchesKey stats.columns d o r row = true := by
    intro row hrow
    rw [hrows] at hrow
    obtain ⟨rw0, _, hr0⟩ := List.mem_map.mp hrow
    rw [← hr0, hcols]
    exact rowMatchesKey_stamped cs d o r rw0
  have hslen : ∀ row ∈ stats.rows, row.length = stats.columns.length := by
    intro row hrow
    rw [hrows] at hrow
    obtain ⟨rw0, hm0, hr0⟩ := List.mem_map.mp hrow
    rw [← hr0, hcols]
    simp [hlen rw0 hm0]
  have hsd : "date" ∈ stats.columns := by rw [hcols]; simp
  have hso : "owner" ∈ stats.columns := by rw [hcols]; simp
  have hsr : "repo" ∈ stats.columns := by rw [hcols]; simp
  unfold mergeStats at h
  by_cases hse : stored.isEmpty
  · -- the stored frame was empty: the merge passed the fresh frame through
    rw [if_pos hse] at h
    have hms : merged = stats := by simpa using h.symm
    subst hms
    unfold mergeStats
    rw [if_neg (by simp [isEmpty_false_of hsne hscne]),
      if_pos (mergeGuard_true hsd hso hsr), dropKeyRows_all_match hallm]
    unfold concatTables
    rw [if_pos rfl, List.nil_append]
  · rw [if_neg hse] at h
    by_cases hg : (stored.columns.contains "date" && stored.columns.contains "owner"
        && stored.columns.contains "repo") = true
    · rw [if_pos hg] at h
      simp only [Bool.and_eq_true] at hg
      have hgd : "date" ∈ stored.columns := (containsIffMem _ _).mp hg.1.1
      have hgo : "owner" ∈ stored.columns := (containsIffMem _ _).mp hg.1.2
      have hgr : "repo" ∈ stored.columns := (containsIffMem _ _).mp hg.2
      obtain ⟨kept, hkd⟩ :
          ∃ kept, stored.rows.filter (fun row => !rowMatchesKey stored.columns d o r row) = kept :=
        ⟨_, rfl⟩
      have hdk : dropKeyRows d o r stored = ⟨stored.columns, kept⟩ := by
        unfold dropKeyRows
        rw [hkd]
      rw [hdk] at h
      have hkept : ∀ row ∈ kept, rowMatchesKey stored.columns d o r row = false := by
        intro row hrow
        rw [← hkd] at hrow
        have := List.of_mem_filter hrow
        simpa using this
      have hkeptfix : kept.filter (fun row => !rowMatchesKey stored.columns d o r row) = kept := by
        rw [← hkd]
        exact filter_of_already _ _
      by_cases hceq : stored.columns = stats.columns
      · -- aligned stored frame: concat is plain stacking
        have hconc : concatTables ⟨stored.columns, kept⟩ stats =
            ⟨stored.columns, kept ++ stats.rows⟩ := by
          unfold concatTables
          dsimp only
          rw [if_pos hceq]
        rw [hconc] at h
        have hm2 : merged = ⟨stored.columns, kept ++ stats.rows⟩ := by
          simpa using h.symm
        have hmc : merged.columns = stored.columns := by rw [hm2]
        have hmr : merged.rows = kept ++ stats.rows := by rw [hm2]
        unfold mergeStats
        have hmne : merged.rows ≠ [] := by
          rw [hmr]
          simp [hsne]
        have hmcne : merged.columns ≠ [] := by
          rw [hmc]
          exact List.ne_nil_of_mem hgd
        rw [if_neg (by simp [isEmpty_false_of hmne hmcne]),
          if_pos (mergeGuard_true (hmc ▸ hgd) (hmc ▸ hgo) (hmc ▸ hgr))]
        have hdropm : dropKeyRows d o r merged = ⟨stored.columns, kept⟩ := by
          unfold dropKeyRows
          rw [hmc, hmr, List.filter_append, hkeptfix]
          have hnil : stats.rows.filter (fun row => !rowMatchesKey stored.columns d o r row) = [] := by
            rw [List.filter_eq_nil_iff]
            intro row hrow
            rw [hceq]
            simp [hallm row hrow]
          rw [hnil, List.append_nil]
        rw [hdropm, hconc, hm2]
      · -- misaligned stored frame: concat realigned both row sets
        obtain ⟨mc, hmcd0⟩ :
            ∃ mc, stored.columns ++ stats.columns.filter (fun c => !stored.columns.contains c) = mc :=
          ⟨_, rfl⟩
        have hcc : concatCols ⟨stored.columns, kept⟩ stats = mc := by
          unfold concatCols
          dsimp only
          exact hmcd0
        have hconc : concatTables ⟨stored.columns, kept⟩ stats =
            ⟨mc, kept.map (fun r0 => reindexRow stored.columns r0 mc) ++
                 stats.rows.map (fun r0 => reindexRow stats.columns r0 mc)⟩ := by
          unfold concatTables
          dsimp only
          rw [if_neg hceq, hcc]
        rw [hconc] at h
        have hm2 : merged = ⟨mc, kept.map (fun r0 => reindexRow stored.columns r0 mc) ++
            stats.rows.map (fun r0 => reindexRow stats.columns r0 mc)⟩ := by
          simpa using h.symm
        have hmcd : "date" ∈ mc := by
          rw [← hmcd0]
          exact List.mem_append_left _ hgd
        have hmco : "owner" ∈ mc := by
          rw [← hmcd0]
          exact List.mem_append_left _ hgo
        have hmcr : "repo" ∈ mc := by
          rw [← hmcd0]
          exact List.mem_append_left _ hgr
        have hsub : ∀ c ∈ stats.columns, c ∈ mc := by
          intro c hc
          rw [← hmcd0]
          by_cases h1 : c ∈ stored.columns
          · exact List.mem_append_left _ h1
          · refine List.mem_append_right _ ?_
            rw [List.mem_filter]
            refine ⟨hc, ?_⟩
            simp [containsIffMem, h1]
        have hmcnd : mc.Nodup := by
          rw [← hmcd0, List.nodup_append]
          refine ⟨hnd, hsnd.filter _, ?_⟩
          intro c hc1 hc2
          rw [List.mem_filter] at hc2
          have := hc2.2
          simp [containsIffMem] at this
          exact this hc1
        have hmc : merged.columns = mc := by rw [hm2]
        have hmr : merged.rows =
            kept.map (fun r0 => reindexRow stored.columns r0 mc) ++
            stats.rows.map (fun r0 => reindexRow stats.columns r0 mc) := by rw [hm2]
        unfold mergeStats
        have hmne : merged.rows ≠ [] := by
          rw [hmr]
          simp [hsne]
        have hmcne : merged.columns ≠ [] := by
          rw [hmc]
          exact List.ne_nil_of_mem hmcd
        rw [if_neg (by simp [isEmpty_false_of hmne hmcne]),
          if_pos (mergeGuard_true (hmc ▸ hmcd) (hmc ▸ hmco) (hmc ▸ hmcr))]
        have hdropm : dropKeyRows d o r merged =
            ⟨mc, kept.map (fun r0 => reindexRow stored.columns r0 mc)⟩ := by
          unfold dropKeyRows
          rw [hmc, hmr, List.filter_append]
          have h1 : (kept.map (fun r0 => reindexRow stored.columns r0 mc)).filter
              (fun row => !rowMatchesKey mc d o r row) =
              kept.map (fun r0 => reindexRow stored.columns r0 mc) := by
            rw [List.filter_eq_self]
            intro x hx
            obtain ⟨row, hrowm, hx0⟩ := List.mem_map.mp hx
            rw [← hx0, rowMatchesKey_reindex stored.columns row mc d o r hmcd hmco hmcr]
            simp [hkept row hrowm]
          have h2 : (stats.rows.map (fun r0 => reindexRow stats.columns r0 mc)).filter
              (fun row => !rowMatchesKey mc d o r row) = [] := by
            rw [List.filter_eq_nil_iff]
            intro x hx
            obtain ⟨row, hrowm, hx0⟩ := List.mem_map.mp hx
            rw [← hx0, rowMatchesKey_reindex stats.columns row mc d o r
              (hsub _ hsd) (hsub _ hso) (hsub _ hsr)]
            simp [hallm row hrowm]
          rw [h1, h2, List.append_nil]
        rw [hdropm]
        have habs := concatTables_absorb
          (a := ⟨mc, kept.map (fun r0 => reindexRow stored.columns r0 mc)⟩)
          (b := stats) hsub hmcnd hsnd
          (by
            intro row hrow
            obtain ⟨row0, _, hr0⟩ := List.mem_map.mp hrow
            rw [← hr0]
            exact reindexRow_length stored.columns row0 mc)
          hslen
        rw [habs, hm2]
    · rw [if_neg hg] at h
      exact absurd h (by simp)

theorem rows_nil_of_isEmpty {t : StatTable} (h : t.isEmpty = true) (hc : t.columns ≠ []) :
    t.rows = [] := by
  unfold StatTable.isEmpty at h
  cases hcl : t.columns with
  | nil => exact absurd hcl hc
  | cons b m =>
    rw [hcl] at h
    simpa using h

theorem findActualStat_noMatch (date : String) :
    ∀ entries : List Json, (∀ e ∈ entries, entryNoMatch date e) →
      findActualStat date entries = .ok zeroStat := by
  intro entries
  induction entries with
  | nil => intro _; rfl
  | cons e es ih =>
    intro h
    have he := h e (by simp)
    cases e with
    | obj fs =>
      unfold findActualStat
      dsimp only
      cases hts : lookupJ fs "timestamp" with
      | none => rfl
      | some v =>
        obtain ⟨ts, rfl, hst⟩ := he v hts
        dsimp only
        rw [if_neg (by rw [hst]; simp)]
        exact ih (fun x hx => h x (by simp [hx]))
    | str s => exact absurd he id
    | int n => exact absurd he id
    | arr xs => exact absurd he id

theorem findActualStat_firstMatch (date : String) (fs : List (String × Json)) (ts : String)
    (hts : lookupJ fs "timestamp" = some (Json.str ts)) (hm : pyStartsWith ts date = true) :
    ∀ pre : List Json, (∀ e ∈ pre, entrySkipped date e) →
      ∀ post : List Json, findActualStat date (pre ++ Json.obj fs :: post) = .ok fs := by
  intro pre
  induction pre with
  | nil =>
    intro _ post
    rw [List.nil_append]
    unfold findActualStat
    dsimp only
    rw [hts]
    dsimp only
    rw [if_pos hm]
  | cons e es ih =>
    intro h post
    have he := h e (by simp)
    cases e with
    | obj gs =>
      obtain ⟨ts2, hts2, hst2⟩ := he
      rw [List.cons_append]
      unfold findActualStat
      dsimp only
      rw [hts2]
      dsimp only
      rw [if_neg (by rw [hst2]; simp)]
      exact ih (fun x hx => h x (by simp [hx])) post
    | str s => exact absurd he id
    | int n => exact absurd he id
    | arr xs => exact absurd he id

theorem getActualStat_obj (date name : String) (fields : List (String × Json)) :
    getActualStat date (Json.obj fields) name =
      match lookupJ fields name with
      | some (.arr entries) => findActualStat date entries
      | some _ => .error "TypeError"
      | none => .ok zeroStat := rfl

theorem processReferrers_items {data : Json} {items : List (List (String × Value))}
    (h : jsonToItems data = .ok items) :
    processStat GithubStatType.referrers [data] = .ok (dfOfItems items) := by
  show processReferrers [data] = _
  unfold processReferrers
  rw [show getItem [data] 0 = Except.ok data from rfl, exbind_ok, h, exbind_ok, expure]

theorem processPaths_items {data : Json} {items : List (List (String × Value))}
    (h : jsonToItems data = .ok items) :
    processStat GithubStatType.paths [data] =
      .ok (if (dfOfItems items).columns.contains "title" then
            (dfOfItems items).dropColumn "title" else dfOfItems items) := by
  show processPaths [data] = _
  unfold processPaths
  rw [show getItem [data] 0 = Except.ok data from rfl, exbind_ok, h, exbind_ok, expure]

theorem dropColumn_columns (t : StatTable) (k : String) :
    (t.dropColumn k).columns = t.columns.erase k := by
  show dropColumnCols t.columns k = t.columns.erase k
  exact dropColumnCols_eq_erase t.columns k

/-! ## Claim theorems -/

/-- C1: the merge step removes from the stored table every row whose
`(date, owner, repo)` cells equal `(today, owner, repo)` and appends all
freshly stamped rows to what remains; stored rows for other keys are
preserved unchanged and in their original order.  Stated for a stored table
carrying the key columns and sharing the fresh table's header, as every
table this writer persists does. -/
theorem merge_removes_key_rows_and_appends (d o r : String) (stored stats : StatTable)
    (hc : stats.columns = stored.columns)
    (hd : "date" ∈ stored.columns) (ho : "owner" ∈ stored.columns)
    (hr : "repo" ∈ stored.columns) :
    mergeStats d o r stored stats =
      .ok ⟨stored.columns,
        stored.rows.filter (fun row => !rowMatchesKey stored.columns d o r row) ++
          stats.rows⟩ := by
  unfold mergeStats
  by_cases hse : stored.isEmpty
  · rw [if_pos hse]
    have hcne : stored.columns ≠ [] := List.ne_nil_of_mem hd
    have hrnil : stored.rows = [] := rows_nil_of_isEmpty hse hcne
    rw [hrnil, List.filter_nil, List.nil_append, ← hc]
  · rw [if_neg hse, if_pos (mergeGuard_true hd ho hr)]
    have hdk : dropKeyRows d o r stored =
        ⟨stored.columns,
         stored.rows.filter (fun row => !rowMatchesKey stored.columns d o r row)⟩ := rfl
    rw [hdk]
    unfold concatTables
    dsimp only
    rw [if_pos hc.symm]

/-- C1 witness: the spec's dedup scenario, with a stored table holding one
`2024-01-01` row and one old `2024-01-02` row and a fresh `2024-01-02` row. -/
theorem merge_removes_key_rows_and_appends_witness :
    mergeStats "2024-01-02" "acme" "widget"
      ⟨["date", "owner", "repo", "referrer", "count", "uniques"],
       [[Value.str "2024-01-01", Value.str "acme", Value.str "widget",
         Value.str "home", Value.int 10, Value.int 8],
        [Value.str "2024-01-02", Value.str "acme", Value.str "widget",
         Value.str "bing", Value.int 1, Value.int 1]]⟩
      ⟨["date", "owner", "repo", "referrer", "count", "uniques"],
       [[Value.str "2024-01-02", Value.str "acme", Value.str "widget",
         Value.str "google", Value.int 5, Value.int 4]]⟩ =
      .ok ⟨["date", "owner", "repo", "referrer", "count", "uniques"],
       [[Value.str "2024-01-01", Value.str "acme", Value.str "widget",
         Value.str "home", Value.int 10, Value.int 8],
        [Value.str "2024-01-02", Value.str "acme", Value.str "widget",
         Value.str "google", Value.int 5, Value.int 4]]⟩ := by
  have h := merge_removes_key_rows_and_appends "2024-01-02" "acme" "widget"
    ⟨["date", "owner", "repo", "referrer", "count", "uniques"],
     [[Value.str "2024-01-01", Value.str "acme", Value.str "widget",
       Value.str "home", Value.int 10, Value.int 8],
      [Value.str "2024-01-02", Value.str "acme", Value.str "widget",
       Value.str "bing", Value.int 1, Value.int 1]]⟩
    ⟨["date", "owner", "repo", "referrer", "count", "uniques"],
     [[Value.str "2024-01-02", Value.str "acme", Value.str "widget",
       Value.str "google", Value.int 5, Value.int 4]]⟩
    rfl (by decide) (by decide) (by decide)
  exact h

/-- C2: re-running `write_stat` for the same `(date, owner, repo)` key any
number `n ≥ 1` of times with the same fetched responses leaves the target
file identical to running it once (stated for a stored file whose column
labels are pairwise distinct, as pandas alignment requires). -/
theorem write_stat_idempotent (d o r : String) (st : GithubStatType)
    (resp : List (Except String Json)) (file : Option StatTable)
    (hfile : ∀ t, file = some t → t.columns.Nodup) (n : Nat) (hn : 1 ≤ n) :
    (runWriteStat d o r st resp)^[n] file = runWriteStat d o r st resp file := by
  have key : runWriteStat d o r st resp (runWriteStat d o r st resp file) =
      runWriteStat d o r st resp file := by
    cases hw : writeStat d o r st resp file with
    | error e =>
      have h1 : runWriteStat d o r st resp file = file := by
        unfold runWriteStat
        rw [hw]
      rw [h1, h1]
    | ok f =>
      obtain ⟨stats, merged, hgs, hm, hf⟩ := writeStat_ok_inv hw
      subst hf
      obtain ⟨cs, rows, hcols, hsnd, hrows, hne, hlen⟩ := getStats_ok_shape hgs
      have hnd : (getStoredStats file).columns.Nodup := by
        cases file with
        | none => exact List.nodup_nil
        | some t => exact hfile t rfl
      have hfix := mergeStats_fixpoint hnd cs rows hcols hsnd hrows hne hlen hm
      have hw2 : writeStat d o r st resp (some merged) = .ok (some merged) := by
        unfold writeStat
        rw [hgs, exbind_ok]
        show (mergeStats d o r (getStoredStats (some merged)) stats >>=
          fun m => pure (some m)) = _
        rw [show getStoredStats (some merged) = merged from rfl, hfix, exbind_ok, expure]
      have h1 : runWriteStat d o r st resp file = some merged := by
        unfold runWriteStat
        rw [hw]
      have h2 : runWriteStat d o r st resp (some merged) = some merged := by
        unfold runWriteStat
        rw [hw2]
      rw [h1, h2]
  obtain ⟨m, rfl⟩ : ∃ m, n = m + 1 := ⟨n - 1, (Nat.succ_pred_eq_of_pos hn).symm⟩
  clear hn
  induction m with
  | zero => rw [Function.iterate_one]
  | succ k ih => rw [Function.iterate_succ_apply', ih, key]

/-- C2 witness: three consecutive writes of the same referrers fetch into an
absent file equal a single write. -/
theorem write_stat_idempotent_witness :
    (runWriteStat "2024-01-02" "acme" "widget" GithubStatType.referrers
      [Except.ok (Json.arr [Json.obj [("referrer", Json.str "google"),
        ("count", Json.int 5), ("uniques", Json.int 4)]])])^[3] none =
    runWriteStat "2024-01-02" "acme" "widget" GithubStatType.referrers
      [Except.ok (Json.arr [Json.obj [("referrer", Json.str "google"),
        ("count", Json.int 5), ("uniques", Json.int 4)]])] none :=
  write_stat_idempotent "2024-01-02" "acme" "widget" GithubStatType.referrers
    [Except.ok (Json.arr [Json.obj [("referrer", Json.str "google"),
      ("count", Json.int 5), ("uniques", Json.int 4)]])] none
    (fun t ht => nomatch ht) 3 (by decide)

/-- C3: for every metric type, when the transformed fetch result is an empty
frame, `_get_stats` yields exactly one row holding the placeholder `"-"` in
every dimension column and `0` in every measure column, stamped with the
target date, owner and repo. -/
theorem empty_transform_sentinel_row (d o r : String) (st : GithubStatType)
    (resp : List (Except String Json)) (js : List Json) (t : StatTable)
    (hf : fetchResponses resp = .ok js) (hp : processStat st js = .ok t)
    (he : t.isEmpty = true) :
    getStats d o r st resp =
      .ok ⟨"date" :: "owner" :: "repo" :: (st.dimensions ++ st.measures),
           [Value.str d :: Value.str o :: Value.str r ::
             (st.dimensions.map (fun _ => Value.str "-") ++
              st.measures.map (fun _ => Value.int 0))]⟩ := by
  have hguard : ¬(((sentinelRowTable st).columns.contains "date" ||
      (sentinelRowTable st).columns.contains "owner" ||
      (sentinelRowTable st).columns.contains "repo") = true) := by
    cases st with
    | referrers => decide
    | paths => decide
    | starsForks => decide
    | viewsClones dt =>
      show ¬((["views_total", "views_unique", "clones_total", "clones_unique"].contains "date" ||
        ["views_total", "views_unique", "clones_total", "clones_unique"].contains "owner" ||
        ["views_total", "views_unique", "clones_total", "clones_unique"].contains "repo") = true)
      decide
  have h1 : getStat st resp = .ok t := by
    unfold getStat
    rw [hf, exbind_ok]
    show processStat st js = Except.ok t
    exact hp
  unfold getStats
  rw [h1, exbind_ok]
  show insertMetadata d o r (if t.isEmpty then sentinelRowTable st else t) = _
  rw [if_pos he]
  unfold insertMetadata
  rw [if_neg hguard]
  rfl

/-- C3 witness: a referrers fetch returning an empty payload array. -/
theorem empty_transform_sentinel_row_witness :
    getStats "2024-01-02" "acme" "widget" GithubStatType.referrers
      [Except.ok (Json.arr [])] =
      .ok ⟨["date", "owner", "repo", "referrer", "count", "uniques"],
           [[Value.str "2024-01-02", Value.str "acme", Value.str "widget",
             Value.str "-", Value.int 0, Value.int 0]]⟩ := by
  have h := empty_transform_sentinel_row "2024-01-02" "acme" "widget"
    GithubStatType.referrers [Except.ok (Json.arr [])] [Json.arr []] (dfOfItems [])
    rfl rfl rfl
  exact h

/-- C7: when no file exists at the target path, `write_stat` treats the
stored table as empty and the persisted file holds exactly the freshly
stamped table (its header and its rows). -/
theorem missing_file_creates_header_plus_fresh (d o r : String) (st : GithubStatType)
    (resp : List (Except String Json)) :
    writeStat d o r st resp none = (getStats d o r st resp).map some := by
  unfold writeStat
  cases hg : getStats d o r st resp with
  | error e => rfl
  | ok stats =>
    show (mergeStats d o r (getStoredStats none) stats >>= fun m => pure (some m)) = _
    rw [show mergeStats d o r (getStoredStats none) stats = Except.ok stats from rfl,
      exbind_ok, expure]
    rfl

/-- C8: the fetch loop fails on the first non-2xx response with no partial
result; a failing fetch makes `_get_stats` fail with the same error; and any
failure of `_get_stats` (fetching or transforming) leaves the target file
unchanged, whatever its prior content. -/
theorem fetch_failure_leaves_file_untouched :
    (∀ (pre : List (Except String Json)) (e : String) (post : List (Except String Json)),
      (∀ x ∈ pre, ∃ j, x = Except.ok j) →
      fetchResponses (pre ++ Except.error e :: post) = Except.error e) ∧
    (∀ (d o r : String) (st : GithubStatType) (resp : List (Except String Json)) (e : String),
      fetchResponses resp = Except.error e → getStats d o r st resp = Except.error e) ∧
    (∀ (d o r : String) (st : GithubStatType) (resp : List (Except String Json))
      (file : Option StatTable) (e : String),
      getStats d o r st resp = Except.error e → runWriteStat d o r st resp file = file) := by
  refine ⟨?_, ?_, ?_⟩
  · intro pre e post
    induction pre with
    | nil =>
      intro _
      rfl
    | cons x xs ih =>
      intro h
      obtain ⟨j, rfl⟩ := h x (by simp)
      show ((Except.ok j : Except String Json) >>= fun j0 =>
        fetchResponses (xs ++ Except.error e :: post) >>= fun js =>
          pure (j0 :: js)) = _
      rw [exbind_ok, ih (fun y hy => h y (by simp [hy])), exbind_error]
  · intro d o r st resp e hf
    unfold getStats getStat
    rw [hf, exbind_error, exbind_error]
  · intro d o r st resp file e hg
    unfold runWriteStat writeStat
    rw [hg, exbind_error]

/-- C8 witness: a 404 on the single referrers endpoint leaves the existing
file exactly as it was. -/
theorem fetch_failure_leaves_file_untouched_witness :
    runWriteStat "2024-01-02" "acme" "widget" GithubStatType.referrers
      [Except.error "HTTPError 404"]
      (some ⟨["date", "owner", "repo", "referrer", "count", "uniques"],
        [[Value.str "2024-01-01", Value.str "acme", Value.str "widget",
          Value.str "home", Value.int 10, Value.int 8]]⟩) =
      some ⟨["date", "owner", "repo", "referrer", "count", "uniques"],
        [[Value.str "2024-01-01", Value.str "acme", Value.str "widget",
          Value.str "home", Value.int 10, Value.int 8]]⟩ :=
  fetch_failure_leaves_file_untouched.2.2 "2024-01-02" "acme" "widget"
    GithubStatType.referrers [Except.error "HTTPError 404"]
    (some ⟨["date", "owner", "repo", "referrer", "count", "uniques"],
      [[Value.str "2024-01-01", Value.str "acme", Value.str "widget",
        Value.str "home", Value.int 10, Value.int 8]]⟩)
    "HTTPError 404" rfl

/-- C10: for a run whose system date is `today`, every row `_get_stats`
produces carries in its `date` column the string for `today` minus one day,
formatted `YYYY-MM-DD` — the day before the run, which is also the string
the merge step uses as its dedup key. -/
theorem stamped_date_is_day_before_run (today : PyDate) (o r : String)
    (st : GithubStatType) (resp : List (Except String Json)) (stats : StatTable)
    (h : getStats (writeGithubStatDate today) o r st resp = .ok stats) :
    ∀ row ∈ stats.rows,
      rowGet stats.columns row "date" =
        some (Value.str (strftimeYMD (prevDay today))) := by
  obtain ⟨cs, rows, hcols, _, hrows, _, _⟩ := getStats_ok_shape h
  intro row hrow
  rw [hrows] at hrow
  obtain ⟨rw0, _, hr0⟩ := List.mem_map.mp hrow
  rw [← hr0, hcols]
  exact rowGet_cons_self "date" _ _ _

/-- C10 witness: a run on 2024-03-01 stamps 2024-02-29 (leap February). -/
theorem stamped_date_is_day_before_run_witness :
    rowGet ["date", "owner", "repo", "referrer", "count", "uniques"]
      [Value.str "2024-02-29", Value.str "acme", Value.str "widget",
       Value.str "google", Value.int 5, Value.int 4] "date" =
      some (Value.str "2024-02-29") := by
  have h := stamped_date_is_day_before_run ⟨2024, 3, 1⟩ "acme" "widget"
    GithubStatType.referrers
    [Except.ok (Json.arr [Json.obj [("referrer", Json.str "google"),
      ("count", Json.int 5), ("uniques", Json.int 4)]])]
    ⟨["date", "owner", "repo", "referrer", "count", "uniques"],
     [[Value.str "2024-02-29", Value.str "acme", Value.str "widget",
       Value.str "google", Value.int 5, Value.int 4]]⟩
    rfl
  exact h _ (by simp)

/-- C4 counterexample: `Referrers.process_stat` takes its column order from
the payload item's key order, so a payload listing `count, uniques,
referrer` persists with that order, not the declared
dimensions-then-measures order. -/
theorem column_order_counterexample :
    runWriteStat "2024-01-02" "acme" "widget" GithubStatType.referrers
      [Except.ok (Json.arr [Json.obj [("count", Json.int 5), ("uniques", Json.int 4),
        ("referrer", Json.str "google")]])] none =
      some ⟨["date", "owner", "repo", "count", "uniques", "referrer"],
        [[Value.str "2024-01-02", Value.str "acme", Value.str "widget",
          Value.int 5, Value.int 4, Value.str "google"]]⟩ ∧
    ((["date", "owner", "repo", "count", "uniques", "referrer"] : List String) ==
      ["date", "owner", "repo"] ++ GithubStatType.referrers.dimensions ++
        GithubStatType.referrers.measures) = false :=
  ⟨rfl, rfl⟩

/-- C4 corrected: `StarsForks` and `ViewsClones` transforms always produce
the declared dimensions-then-measures columns; and for every metric whose
transform output carries the declared columns (true for `Referrers`/`Paths`
exactly when the payload lists its fields in declared order), a write into
an absent file or one with the canonical header persists columns
`date, owner, repo` followed by the declared dimensions then measures —
and a merge into such a stored table preserves that order. -/
theorem column_order_amended :
    (∀ (dt : String) (js : List Json) (t : StatTable),
      processStat (GithubStatType.viewsClones dt) js = .ok t →
      t.columns = (GithubStatType.viewsClones dt).dimensions ++
        (GithubStatType.viewsClones dt).measures) ∧
    (∀ (js : List Json) (t : StatTable),
      processStat GithubStatType.starsForks js = .ok t →
      t.columns = GithubStatType.starsForks.dimensions ++
        GithubStatType.starsForks.measures) ∧
    (∀ (d o r : String) (st : GithubStatType) (resp : List (Except String Json))
      (file : Option StatTable) (merged : StatTable),
      (∀ (js : List Json) (t : StatTable), fetchResponses resp = .ok js →
        processStat st js = .ok t → t.isEmpty = false →
        t.columns = st.dimensions ++ st.measures) →
      (∀ t, file = some t →
        t.columns = "date" :: "owner" :: "repo" :: (st.dimensions ++ st.measures)) →
      writeStat d o r st resp file = .ok (some merged) →
      merged.columns = "date" :: "owner" :: "repo" :: (st.dimensions ++ st.measures)) := by
  refine ⟨?_, ?_, ?_⟩
  · intro dt js t h
    obtain ⟨vt, vu, ct, cu, rfl⟩ := processViewsClones_ok h
    rfl
  · intro js t h
    obtain ⟨stars, forks, rfl⟩ := processStarsForks_ok h
    rfl
  · intro d o r st resp file merged hbase hfile hw
    obtain ⟨stats, merged0, hgs, hm, hf⟩ := writeStat_ok_inv hw
    obtain rfl : merged = merged0 := Option.some.inj hf
    unfold getStats at hgs
    obtain ⟨t, ht, hins⟩ := exbind_ok_inv hgs
    obtain ⟨js, hfr, hp⟩ := getStat_ok ht
    have htc : (if t.isEmpty then sentinelRowTable st else t).columns =
        st.dimensions ++ st.measures := by
      by_cases he : t.isEmpty
      · rw [if_pos he]
        rfl
      · rw [if_neg he]
        exact hbase js t hfr hp (by simpa using he)
    have hsc : stats.columns = "date" :: "owner" :: "repo" ::
        (st.dimensions ++ st.measures) := by
      unfold insertMetadata at hins
      by_cases hgg : ((if t.isEmpty then sentinelRowTable st else t).columns.contains "date" ||
          (if t.isEmpty then sentinelRowTable st else t).columns.contains "owner" ||
          (if t.isEmpty then sentinelRowTable st else t).columns.contains "repo") = true
      · rw [if_pos hgg] at hins
        exact absurd hins (by simp)
      · rw [if_neg hgg] at hins
        have h2 : stats = ⟨"date" :: "owner" :: "repo" ::
            (if t.isEmpty then sentinelRowTable st else t).columns,
            (if t.isEmpty then sentinelRowTable st else t).rows.map
              (fun r0 => Value.str d :: Value.str o :: Value.str r :: r0)⟩ := by
          simpa using hins.symm
        rw [h2]
        dsimp only
        rw [htc]
    cases file with
    | none =>
      have hms : mergeStats d o r (getStoredStats none) stats = .ok stats := rfl
      rw [hms] at hm
      obtain rfl : stats = merged := Except.ok.inj hm
      exact hsc
    | some tf =>
      have hft := hfile tf rfl
      rw [show getStoredStats (some tf) = tf from rfl] at hm
      unfold mergeStats at hm
      by_cases hfe : tf.isEmpty
      · rw [if_pos hfe] at hm
        obtain rfl : stats = merged := Except.ok.inj hm
        exact hsc
      · rw [if_neg hfe] at hm
        have hguard : (tf.columns.contains "date" && tf.columns.contains "owner" &&
            tf.columns.contains "repo") = true := by
          apply mergeGuard_true <;> rw [hft] <;> simp
        rw [if_pos hguard] at hm
        have hdk : dropKeyRows d o r tf =
            ⟨tf.columns, tf.rows.filter (fun row => !rowMatchesKey tf.columns d o r row)⟩ := rfl
        rw [hdk] at hm
        unfold concatTables at hm
        dsimp only at hm
        rw [if_pos (by rw [hft, hsc])] at hm
        obtain rfl := Except.ok.inj hm
        dsimp only
        rw [hft]

/-- C4 witness: a stars/forks write into an absent file persists the
canonical `date, owner, repo, stars, forks` header. -/
theorem column_order_amended_witness :
    (⟨["date", "owner", "repo", "stars", "forks"],
      [[Value.str "2024-01-02", Value.str "acme", Value.str "widget",
        Value.int 7, Value.int 3]]⟩ : StatTable).columns =
      "date" :: "owner" :: "repo" ::
        (GithubStatType.starsForks.dimensions ++ GithubStatType.starsForks.measures) := by
  refine column_order_amended.2.2 "2024-01-02" "acme" "widget" GithubStatType.starsForks
    [Except.ok (Json.obj [("stargazers_count", Json.int 7), ("forks_count", Json.int 3)])]
    none _ ?_ (fun t ht => nomatch ht) rfl
  intro js t hjs hp _
  obtain rfl : [Json.obj [("stargazers_count", Json.int 7), ("forks_count", Json.int 3)]] = js :=
    Except.ok.inj hjs
  obtain rfl := Except.ok.inj hp
  rfl

/-- C5 counterexample: a views payload whose history entry is a bare number
contains no entry whose timestamp starts with the target date, yet the
transform raises an uncaught `TypeError` instead of yielding the zero-filled
values. -/
theorem viewsclones_missing_date_counterexample :
    getActualStat "2024-01-02" (Json.obj [("views", Json.arr [Json.int 42])]) "views" =
      Except.error "TypeError" ∧
    processStat (GithubStatType.viewsClones "2024-01-02")
      [Json.obj [("views", Json.arr [Json.int 42])], Json.obj [("clones", Json.arr [])]] =
      Except.error "TypeError" :=
  ⟨rfl, rfl⟩

/-- C5 corrected: over payloads whose history entries are objects with
string timestamps (the shape the endpoints produce), `_get_actual_stat`
yields the zero-filled stat when the stats key is absent or when no entry's
timestamp starts with the target date, and otherwise returns the first
entry whose timestamp prefix matches. -/
theorem viewsclones_missing_date_amended :
    (∀ (date name : String) (fields : List (String × Json)),
      lookupJ fields name = none →
      getActualStat date (Json.obj fields) name = .ok zeroStat) ∧
    (∀ (date name : String) (fields : List (String × Json)) (entries : List Json),
      lookupJ fields name = some (Json.arr entries) →
      (∀ e ∈ entries, entryNoMatch date e) →
      getActualStat date (Json.obj fields) name = .ok zeroStat) ∧
    (∀ (date name : String) (fields : List (String × Json)) (pre post : List Json)
      (fs : List (String × Json)) (ts : String),
      lookupJ fields name = some (Json.arr (pre ++ Json.obj fs :: post)) →
      (∀ e ∈ pre, entrySkipped date e) →
      lookupJ fs "timestamp" = some (Json.str ts) →
      pyStartsWith ts date = true →
      getActualStat date (Json.obj fields) name = .ok fs) := by
  refine ⟨?_, ?_, ?_⟩
  · intro date name fields h
    rw [getActualStat_obj, h]
  · intro date name fields entries h hall
    rw [getActualStat_obj, h]
    exact findActualStat_noMatch date entries hall
  · intro date name fields pre post fs ts h hskip hts hm
    rw [getActualStat_obj, h]
    exact findActualStat_firstMatch date fs ts hts hm pre hskip post

/-- C5 witness: a history whose only entry is dated the day before the
target date yields the zero-filled stat. -/
theorem viewsclones_missing_date_amended_witness :
    getActualStat "2024-01-02"
      (Json.obj [("views", Json.arr [Json.obj [("timestamp", Json.str "2024-01-01T00:00:00Z"),
        ("count", Json.int 9), ("uniques", Json.int 9)]])]) "views" =
      Except.ok zeroStat := by
  refine viewsclones_missing_date_amended.2.1 "2024-01-02" "views" _
    [Json.obj [("timestamp", Json.str "2024-01-01T00:00:00Z"),
      ("count", Json.int 9), ("uniques", Json.int 9)]] rfl ?_
  intro e he
  rw [List.mem_singleton] at he
  subst he
  intro v hv
  obtain rfl : Json.str "2024-01-01T00:00:00Z" = v := Option.some.inj hv
  exact ⟨"2024-01-01T00:00:00Z", rfl, by decide⟩

/-- C6 counterexample: a views/clones payload with no `views` (or `clones`)
key produces the zero-valued row with no error, because the `KeyError` is
caught by the selection loop's handler. -/
theorem malformed_payload_counterexample :
    processStat (GithubStatType.viewsClones "2024-01-02") [Json.obj [], Json.obj []] =
      Except.ok ⟨["views_total", "views_unique", "clones_total", "clones_unique"],
        [[Value.int 0, Value.int 0, Value.int 0, Value.int 0]]⟩ :=
  rfl

/-- C6 corrected: a missing `stargazers_count` or `forks_count` in the
StarsForks payload surfaces a `KeyError`; but in a ViewsClones payload a
missing `views`/`clones` key is — like a missing date — treated as zero
activity by design, not an error. -/
theorem malformed_payload_amended :
    (∀ fields : List (String × Json), lookupJ fields "stargazers_count" = none →
      processStat GithubStatType.starsForks [Json.obj fields] = Except.error "KeyError") ∧
    (∀ (fields : List (String × Json)) (stars : Json),
      lookupJ fields "stargazers_count" = some stars →
      lookupJ fields "forks_count" = none →
      processStat GithubStatType.starsForks [Json.obj fields] = Except.error "KeyError") ∧
    (∀ (date name : String) (fields : List (String × Json)),
      lookupJ fields name = none →
      getActualStat date (Json.obj fields) name = Except.ok zeroStat) := by
  refine ⟨?_, ?_, ?_⟩
  · intro fields h
    show processStarsForks [Json.obj fields] = _
    unfold processStarsForks
    rw [show getItem [Json.obj fields] 0 = Except.ok (Json.obj fields) from rfl, exbind_ok,
      show asObj (Json.obj fields) = Except.ok fields from rfl, exbind_ok]
    have hsg : objGet fields "stargazers_count" = Except.error "KeyError" := by
      unfold objGet
      rw [h]
    rw [hsg, exbind_error]
  · intro fields stars hs h
    show processStarsForks [Json.obj fields] = _
    unfold processStarsForks
    rw [show getItem [Json.obj fields] 0 = Except.ok (Json.obj fields) from rfl, exbind_ok,
      show asObj (Json.obj fields) = Except.ok fields from rfl, exbind_ok]
    have hsg : objGet fields "stargazers_count" = Except.ok stars := by
      unfold objGet
      rw [hs]
    have hfk : objGet fields "forks_count" = Except.error "KeyError" := by
      unfold objGet
      rw [h]
    rw [hsg, exbind_ok, hfk, exbind_error]
  · intro date name fields h
    rw [getActualStat_obj, h]

/-- C6 witness: an empty repository object makes the StarsForks transform
fail with `KeyError`. -/
theorem malformed_payload_amended_witness :
    processStat GithubStatType.starsForks [Json.obj []] = Except.error "KeyError" :=
  malformed_payload_amended.1 [] rfl

/-- C9 counterexample: `Referrers.process_stat` keeps a `title` field
present in the payload, although `title` is not among the declared
dimensions or measures. -/
theorem title_field_counterexample :
    processStat GithubStatType.referrers
      [Json.arr [Json.obj [("referrer", Json.str "google"), ("count", Json.int 5),
        ("uniques", Json.int 4), ("title", Json.str "widget homepage")]]] =
      Except.ok ⟨["referrer", "count", "uniques", "title"],
        [[Value.str "google", Value.int 5, Value.int 4, Value.str "widget homepage"]]⟩ ∧
    "title" ∈ (["referrer", "count", "uniques", "title"] : List String) ∧
    ((GithubStatType.referrers.dimensions ++
      GithubStatType.referrers.measures).contains "title") = false :=
  ⟨rfl, by decide, rfl⟩

/-- C9 corrected: `Referrers.process_stat` maps payload items to rows
keeping every field (column set = the payload's keys in first-appearance
order); `Paths.process_stat` drops exactly the `title` field when present
and keeps every other field. -/
theorem title_field_amended (data : Json) (items : List (List (String × Value)))
    (h : jsonToItems data = .ok items) :
    processStat GithubStatType.referrers [data] = .ok (dfOfItems items) ∧
    (processStat GithubStatType.referrers [data]).map StatTable.columns =
      .ok (itemsCols items) ∧
    (processStat GithubStatType.paths [data]).map StatTable.columns =
      .ok ((itemsCols items).erase "title") ∧
    (∀ c, c ≠ "title" → (c ∈ (itemsCols items).erase "title" ↔ c ∈ itemsCols items)) := by
  refine ⟨processReferrers_items h, ?_, ?_, ?_⟩
  · rw [processReferrers_items h]
    rfl
  · rw [processPaths_items h]
    by_cases hc : (dfOfItems items).columns.contains "title"
    · rw [if_pos hc]
      show Except.ok ((dfOfItems items).dropColumn "title").columns = _
      rw [dropColumn_columns]
      rfl
    · rw [if_neg hc]
      have hnm : "title" ∉ itemsCols items := fun hmem => hc ((containsIffMem _ _).mpr hmem)
      show Except.ok (dfOfItems items).columns = _
      rw [dfOfItems_columns, List.erase_of_not_mem hnm]
  · intro c hcne
    exact List.mem_erase_of_ne hcne

/-- C9 witness: a paths-shaped payload item; the referrers transform keeps
all four fields including `title`. -/
theorem title_field_amended_witness :
    processStat GithubStatType.referrers
      [Json.arr [Json.obj [("path", Json.str "/"), ("title", Json.str "home"),
        ("count", Json.int 3), ("uniques", Json.int 2)]]] =
      .ok (dfOfItems [[("path", Value.str "/"), ("title", Value.str "home"),
        ("count", Value.int 3), ("uniques", Value.int 2)]]) :=
  (title_field_amended (Json.arr [Json.obj [("path", Json.str "/"), ("title", Json.str "home"),
    ("count", Json.int 3), ("uniques", Json.int 2)]])
    [[("path", Value.str "/"), ("title", Value.str "home"),
      ("count", Value.int 3), ("uniques", Value.int 2)]] rfl).1

end GithubStat
